import Mathlib

/-!
# Verification of the SurreyActivity booking automation

Shallow embedding, in Lean 4, of the core logic of the SurreyActivity
repository (TypeScript): the weekly release-time scheduler
(`src/scheduler.ts`), the slot-resolution scan and the booking state
machine (`src/booking.ts`), and the CLI validation / exit-code logic
(`src/cli.ts`, `src/config.ts`, `src/types.ts`).

All definitions are translated from the TypeScript source.  Effectful
code is modelled by explicit traces: the embedded slot-resolution
function returns, next to its result, the list of click events it
performed, and the embedded `book` returns the number of times the
session teardown (`cleanup`) ran.  External stage outcomes (browser
launch, login, filters, registration) are supplied by an environment
record, one constructor of which represents the stage's promise
rejecting with an error message.

## Time model

The scheduler manipulates JavaScript `Date` values through the date-fns
functions `getDay`, `setHours`, `setMinutes`, `addDays`, `isBefore`,
after converting "now" into the fixed reference timezone
(America/Vancouver).  We model an instant as an `Int` counting minutes
from an epoch that falls on a Sunday at 00:00 in that reference
timezone, with no daylight-saving discontinuity (the spec states its
scheduling properties "within daylight-saving adjustment", i.e. over a
homogeneous local calendar).  Every operation the scheduler performs is
minute-granular, and the date-fns setters preserve the sub-minute
fields (seconds/milliseconds) of their input, so the sub-minute part of
an instant is carried unchanged through every expression the code
compares; the minute-granular model is therefore faithful.  JavaScript
extracts calendar fields by floor division, which is what `Int`'s `/`
and `%` (Euclidean, for a positive divisor) compute.
-/

namespace Surrey

/-- date-fns `getDay`: day of week, 0 = Sunday .. 6 = Saturday. -/
def getDay (t : Int) : Int := (t / 1440) % 7

/-- The calendar day (days since epoch) an instant falls on. -/
def dayOf (t : Int) : Int := t / 1440

/-- Minutes elapsed since the midnight preceding `t`. -/
def timeOfDay (t : Int) : Int := t % 1440

/-- date-fns `setHours`: replace the hour field, keep day and minute
(and the sub-minute fields, which our granularity drops). -/
def setHours (t h : Int) : Int := (t / 1440) * 1440 + h * 60 + t % 60

/-- date-fns `setMinutes`: replace the minute field, keep day and hour.
JavaScript normalises out-of-range minute values by rolling into the
neighbouring hour/day, which the plain arithmetic reproduces (the
scheduler passes `releaseMinute - 2`, which can be negative). -/
def setMinutes (t m : Int) : Int := (t / 60) * 60 + m

/-- date-fns `addDays`. -/
def addDays (t n : Int) : Int := t + n * 1440

/-- date-fns `isBefore`: strict comparison. -/
def isBefore (a b : Int) : Bool := a < b

/-- date-fns `nextMonday`/`nextTuesday`/...: the next calendar day with
day-of-week `w` strictly after `t`, keeping the time of day. -/
def nextDayOfWeek (w t : Int) : Int := addDays t ((w - getDay t - 1) % 7 + 1)

/-- `ScheduleConfig` from `src/scheduler.ts` (the release-rule record).
`cronExpression` and the descriptive strings are carried verbatim;
`targetDay` is the rule's target-day function. -/
structure ScheduleConfig where
  id : String
  activity : String
  cronExpression : String
  cronDay : Int
  releaseHour : Int
  releaseMinute : Int
  targetDay : Int → Int
  location : String
  time : String
  description : String
  testOnly : Bool := false

/-- A rule whose numeric fields are in range (day-of-week 0–6, hour
0–23, minute 0–59), as every entry of the source's `SCHEDULES` catalog
is. -/
def ValidSchedule (s : ScheduleConfig) : Prop :=
  0 ≤ s.cronDay ∧ s.cronDay < 7 ∧
  0 ≤ s.releaseHour ∧ s.releaseHour < 24 ∧
  0 ≤ s.releaseMinute ∧ s.releaseMinute < 60

instance (s : ScheduleConfig) : Decidable (ValidSchedule s) := by
  unfold ValidSchedule; infer_instance

/-- `getNextTargetDate` from `src/scheduler.ts` (lines 78–97): resolve
the calendar date being contended for.  If today is the rule's cron day
and the release time has already passed, compute from tomorrow. -/
def getNextTargetDate (schedule : ScheduleConfig) (now : Int) : Int :=
  let currentDay := getDay now
  let releaseTime := setMinutes (setHours now schedule.releaseHour) schedule.releaseMinute
  if currentDay == schedule.cronDay && isBefore releaseTime now then
    let tomorrow := addDays now 1
    schedule.targetDay tomorrow
  else
    schedule.targetDay now

/-- `getNextCronTrigger` from `src/scheduler.ts` (lines 443–472): the
next instant the rule's cron job fires (the release time minus the
2-minute lead buffer). -/
def getNextCronTrigger (schedule : ScheduleConfig) (now : Int) : Int :=
  let currentDay := getDay now
  let cronDay := schedule.cronDay
  let daysUntil0 := cronDay - currentDay
  let daysUntil1 := if daysUntil0 < 0 then daysUntil0 + 7 else daysUntil0
  let daysUntil :=
    if daysUntil1 = 0 then
      let triggerTime := setMinutes (setHours now schedule.releaseHour) (schedule.releaseMinute - 2)
      if isBefore triggerTime now then (7 : Int) else daysUntil1
    else daysUntil1
  let triggerDate := addDays now daysUntil
  setMinutes (setHours triggerDate schedule.releaseHour) (schedule.releaseMinute - 2)

/-- The `friday-monday-cloverdale` entry of the source's `SCHEDULES`
catalog (cron day Friday, release 18:30, target day next Monday). -/
def fridayMondayCloverdale : ScheduleConfig :=
  { id := "friday-monday-cloverdale"
    activity := "Drop In Badminton - Adult"
    cronExpression := "28 18 * * 5"
    cronDay := 5
    releaseHour := 18
    releaseMinute := 30
    targetDay := fun d => nextDayOfWeek 1 d
    location := "Cloverdale Recreation Centre"
    time := "6:30 am"
    description := "Friday 6:30 PM to Book Monday at Cloverdale" }

/-!
## String model

`findAndSelectSlot` normalises text with
`.toLowerCase().replace(/\s+/g, " ").trim()` and compares with
`String.prototype.includes`.  Strings are modelled on their character
lists; lower/upper-casing is modelled on the ASCII range, which covers
every label the repository matches on.
-/

/-- The JavaScript regex class `\s`, restricted to the ASCII whitespace
characters that can occur in the page text being scanned. -/
def isWsCh (c : Char) : Bool :=
  c == ' ' || c == '\t' || c == '\n' || c == '\r' || c == '\x0b' || c == '\x0c'

/-- ASCII lower-casing of one character (JavaScript `toLowerCase` on the
character data the matcher handles). -/
def lowerChar (c : Char) : Char :=
  if 65 ≤ c.toNat ∧ c.toNat ≤ 90 then Char.ofNat (c.toNat + 32) else c

/-- ASCII upper-casing of one character (used to state
case-insensitivity). -/
def upperChar (c : Char) : Char :=
  if 97 ≤ c.toNat ∧ c.toNat ≤ 122 then Char.ofNat (c.toNat - 32) else c

/-- `replace(/\s+/g, " ")`: each maximal run of whitespace becomes one
space.  The flag records whether the scan is inside a whitespace run. -/
def squashAux : Bool → List Char → List Char
  | _, [] => []
  | inRun, c :: rest =>
    if isWsCh c then
      if inRun then squashAux true rest else ' ' :: squashAux true rest
    else c :: squashAux false rest

/-- Remove trailing whitespace (the right half of `String.prototype.trim`). -/
def trimRight : List Char → List Char
  | [] => []
  | c :: rest =>
    match trimRight rest with
    | [] => if isWsCh c then [] else [c]
    | r => c :: r

/-- `.toLowerCase().replace(/\s+/g, " ").trim()` on a character list. -/
def normList (l : List Char) : List Char :=
  trimRight ((squashAux false (l.map lowerChar)).dropWhile isWsCh)

/-- `.toLowerCase().replace(/\s+/g, " ").trim()`, the normalisation
`findAndSelectSlot` applies to each row text and to the time label. -/
def normalize (s : String) : String := ⟨normList s.data⟩

/-- JavaScript `toLowerCase` (the normalisation applied to the activity
and the location). -/
def lowerStr (s : String) : String := ⟨s.data.map lowerChar⟩

/-- Upper-casing a whole string (used to state case-insensitivity). -/
def upperStr (s : String) : String := ⟨s.data.map upperChar⟩

/-- JavaScript `s.split(" ")[0]`: the characters before the first space. -/
def firstWord (s : String) : String := ⟨s.data.takeWhile (fun c => c != ' ')⟩

/-- JavaScript `hay.includes(needle)` on character lists. -/
def containsSub : List Char → List Char → Bool
  | hay, needle =>
    needle.isPrefixOf hay ||
      match hay with
      | [] => false
      | _ :: t => containsSub t needle

/-- JavaScript `hay.includes(needle)`. -/
def containsStr (hay needle : String) : Bool := containsSub hay.data needle.data

/-- No two adjacent whitespace characters. -/
def noDoubleWs : List Char → Bool
  | [] => true
  | [_] => true
  | a :: b :: rest => !(isWsCh a && isWsCh b) && noDoubleWs (b :: rest)

/-- The first character, if any, is not whitespace. -/
def headNotWs (l : List Char) : Bool := l.head?.all fun c => !isWsCh c

/-- The last character, if any, is not whitespace. -/
def lastNotWs : List Char → Bool
  | [] => true
  | [c] => !isWsCh c
  | _ :: c :: rest => lastNotWs (c :: rest)

/-- A string is whitespace-collapsed: no leading or trailing whitespace
and no run of two or more whitespace characters. -/
def wsCollapsed (s : String) : Bool :=
  headNotWs s.data && noDoubleWs s.data && lastNotWs s.data

/-!
## Slot resolution (`src/booking.ts`, `findAndSelectSlot`, lines 407–541)
-/

/-- `SlotStatus` from `src/types.ts`. -/
inductive SlotStatus where
  | available
  | waitlist
  | full
  | notFound
deriving DecidableEq

/-- `SlotInfo` from `src/types.ts` (the fields `findAndSelectSlot`
populates). -/
structure SlotInfo where
  status : SlotStatus
  buttonRef : Option String := none
deriving DecidableEq

/-- One `tr.bm-class-row` of the results table: its text content and
which action buttons (`input[value="Register"]`, `input[value="Waitlist"]`)
it contains. -/
structure EventRow where
  text : String
  hasRegister : Bool
  hasWaitlist : Bool
deriving DecidableEq

/-- Which button a click landed on. -/
inductive ClickTarget where
  | register
  | waitlist
deriving DecidableEq

/-- A click event recorded by the model: the button and the row it was
found in. -/
structure Click where
  target : ClickTarget
  row : EventRow
deriving DecidableEq

/-- `BookingParams` from `src/types.ts`. -/
structure BookingParams where
  id : Option String := none
  enabled : Option Bool := none
  activity : String
  date : String
  time : String
  location : String
  preferWaitlist : Bool := false
deriving DecidableEq

/-- The three containment tests of `findAndSelectSlot` (lines 465–467):
the normalised row text must contain the lower-cased activity, the
normalised time label, and the first word of the lower-cased location. -/
def rowMatchesTests (p : BookingParams) (rowText : String) : Bool :=
  containsStr rowText (lowerStr p.activity) &&
  containsStr rowText (normalize p.time) &&
  containsStr rowText (firstWord (lowerStr p.location))

/-- A row the scan accepts: not skipped as too short (line 462) and
passing the three containment tests. -/
def rowMatches (p : BookingParams) (row : EventRow) : Bool :=
  decide (30 ≤ (normalize row.text).length) && rowMatchesTests p (normalize row.text)

/-- The row loop of `findAndSelectSlot` (lines 454–521): scan rows in
document order; skip rows whose normalised text is shorter than 30
characters; on a row passing the three tests, click Register if present
(status `available`), else click Waitlist if present and accepted
(status `waitlist`), else if Waitlist present but not accepted return
status `waitlist` without clicking; a matching row with neither button
is logged and the scan continues; no acceptable row gives `not-found`. -/
def findSlotRows (p : BookingParams) : List EventRow → SlotInfo × List Click
  | [] => ({ status := .notFound }, [])
  | row :: rest =>
    let rowText := normalize row.text
    if rowText.length < 30 then findSlotRows p rest
    else if rowMatchesTests p rowText then
      if row.hasRegister then
        ({ status := .available, buttonRef := some "register" }, [⟨.register, row⟩])
      else if row.hasWaitlist then
        if p.preferWaitlist then
          ({ status := .waitlist, buttonRef := some "waitlist" }, [⟨.waitlist, row⟩])
        else
          ({ status := .waitlist }, [])
      else findSlotRows p rest
    else findSlotRows p rest

/-- `findAndSelectSlot` from `src/booking.ts`, as a function of the rows
the page presents.  (The surrounding try/catch returns `not-found` on a
thrown error and does not click, which coincides with the `[]`-rows
behaviour and is subsumed by letting the caller inject any `SlotInfo`
through the stage environment below.) -/
def findAndSelectSlot (p : BookingParams) (rows : List EventRow) : SlotInfo × List Click :=
  findSlotRows p rows

/-!
## The booking attempt (`src/booking.ts`, `book`, lines 779–851)
-/

/-- `BookingResult` from `src/types.ts`.  The wall-clock `timestamp`
field is not modelled; no claim concerns it. -/
structure BookingResult where
  success : Bool
  bookingId : Option String := none
  activity : String
  date : String
  time : String
  location : String
  message : String
  error : Option String := none
  waitlisted : Option Bool := none
deriving DecidableEq

/-- Outcome of one stage of the attempt: the stage's promise resolved
with a value, or rejected with an error message (each stage method can
throw, e.g. `chromium.launch` failing or the `Browser not initialized`
guard that precedes each stage's own try/catch). -/
inductive StageResult (α : Type) where
  | ok (val : α)
  | thrown (msg : String)
deriving DecidableEq

/-- The environment of one attempt: what each externally-determined
stage does when reached.  `slotResult` carries the `SlotInfo` produced
by slot resolution (`findAndSelectSlot` applied to the page's rows), or
a thrown error. -/
structure BookEnv where
  initResult : StageResult Unit
  loginResult : StageResult Bool
  filterResult : StageResult Bool
  slotResult : StageResult SlotInfo
  registrationResult : StageResult Bool
deriving DecidableEq

/-- The result record `book` creates at entry (lines 782–790). -/
def emptyResult (p : BookingParams) : BookingResult :=
  { success := false, activity := p.activity, date := p.date, time := p.time,
    location := p.location, message := "" }

/-- The `try` block of `book` (lines 792–842): run the stages in order,
short-circuiting on stage failures exactly as the source does; a thrown
stage error escapes as `Except.error`. -/
def bookBody (p : BookingParams) (env : BookEnv) : Except String BookingResult :=
  let result := emptyResult p
  match env.initResult with
  | .thrown msg => .error msg
  | .ok _ =>
    match env.loginResult with
    | .thrown msg => .error msg
    | .ok loginSuccess =>
      if !loginSuccess then
        .ok { result with message := "Login failed",
                          error := some "Could not login to Surrey booking system" }
      else
        match env.filterResult with
        | .thrown msg => .error msg
        | .ok filterSuccess =>
          if !filterSuccess then
            .ok { result with message := "Failed to apply filters",
                              error := some "Could not navigate to booking page or apply filters" }
          else
            match env.slotResult with
            | .thrown msg => .error msg
            | .ok slotInfo =>
              if slotInfo.status = .notFound then
                .ok { result with message := "Slot not found",
                                  error := some ("Could not find slot for " ++ p.activity ++
                                    " at " ++ p.time ++ " - " ++ p.location) }
              else if slotInfo.status = .full ∧ ¬ p.preferWaitlist then
                .ok { result with message := "Slot is full",
                                  error := some "The requested slot is full and waitlist is not enabled" }
              else
                match env.registrationResult with
                | .thrown msg => .error msg
                | .ok registrationSuccess =>
                  if registrationSuccess then
                    .ok { result with
                      success := true,
                      waitlisted := some (slotInfo.status = .waitlist),
                      message :=
                        if slotInfo.status = .waitlist then "Successfully added to waitlist"
                        else "Booking completed successfully" }
                  else
                    .ok { result with message := "Registration failed",
                                      error := some "Could not complete the registration process" }

/-- `book` (lines 779–851): the `try` block, the `catch` converting any
thrown error into a failed result with message `"Booking failed"` and
the error's message (lines 843–848), and the `finally` running the
session teardown `cleanup` (lines 848–850).  The second component
counts the `cleanup` invocations of the attempt; `cleanup` itself
swallows errors of the individual closes, so it cannot throw. -/
def book (p : BookingParams) (env : BookEnv) : BookingResult × Nat :=
  match bookBody p env with
  | .ok r => (r, 1)
  | .error msg =>
    ({ emptyResult p with message := "Booking failed", error := some msg }, 1)

/-!
## CLI validation and exit codes (`src/config.ts`, `src/cli.ts`)
-/

/-- ASCII `A`–`Z` (the regex class `[A-Z]`). -/
def isUpperAlpha (c : Char) : Bool := 65 ≤ c.toNat && c.toNat ≤ 90

/-- ASCII `a`–`z` (the regex class `[a-z]`). -/
def isLowerAlpha (c : Char) : Bool := 97 ≤ c.toNat && c.toNat ≤ 122

/-- ASCII `0`–`9` (the regex class `\d`). -/
def isDigitCh (c : Char) : Bool := 48 ≤ c.toNat && c.toNat ≤ 57

/-- `isValidDateFormat` from `src/config.ts`: the anchored regex
`^\d{2}-[A-Z][a-z]{2}-\d{4}$`. -/
def isValidDateFormat (date : String) : Bool :=
  match date.data with
  | [d1, d2, h1, a1, a2, a3, h2, y1, y2, y3, y4] =>
    isDigitCh d1 && isDigitCh d2 && h1 == '-' &&
    isUpperAlpha a1 && isLowerAlpha a2 && isLowerAlpha a3 && h2 == '-' &&
    isDigitCh y1 && isDigitCh y2 && isDigitCh y3 && isDigitCh y4
  | _ => false

/-- The `\s*(am|pm)$` tail of the time regex, case-insensitive. -/
def isAmPmTail (l : List Char) : Bool :=
  match l.dropWhile isWsCh with
  | [a, m] => (lowerChar a == 'a' || lowerChar a == 'p') && lowerChar m == 'm'
  | _ => false

/-- `isValidTimeFormat` from `src/config.ts`: the anchored regex
`^\d{2}:\d{2}\s*(am|pm)$` with the `i` flag — exactly two digits, a
colon, exactly two digits, optional whitespace, `am`/`pm` in any case. -/
def isValidTimeFormat (time : String) : Bool :=
  match time.data with
  | d1 :: d2 :: c :: d3 :: d4 :: rest =>
    isDigitCh d1 && isDigitCh d2 && c == ':' && isDigitCh d3 && isDigitCh d4 &&
    isAmPmTail rest
  | _ => false

/-- `validateBookingParams` from `src/config.ts` (lines 46–74): collect
the error messages for missing or malformed fields, in source order. -/
def validateBookingParams (params : BookingParams) : List String :=
  (if params.activity = "" then ["Activity is required"] else []) ++
  (if params.date = "" then ["Date is required"]
   else if !isValidDateFormat params.date then
     ["Invalid date format: " ++ params.date ++ ". Expected: DD-MMM-YYYY (e.g., 31-Jan-2026)"]
   else []) ++
  (if params.time = "" then ["Time is required"]
   else if !isValidTimeFormat params.time then
     ["Invalid time format: " ++ params.time ++ ". Expected: HH:MM am/pm (e.g., 08:15 am)"]
   else []) ++
  (if params.location = "" then ["Location is required"] else [])

/-- The `book` command action of `src/cli.ts` (lines 50–95): validate
first and exit 1 before any browser work if invalid (`none` records
that no attempt ran); otherwise run one attempt and exit 0 exactly on
success.  (`automation.book` resolves with a result on every path — see
`bookBody`/`book` — so the CLI's surrounding catch is unreachable.) -/
def bookCommand (p : BookingParams) (env : BookEnv) : Nat × Option BookingResult :=
  if 0 < (validateBookingParams p).length then (1, none)
  else
    let result := (book p env).1
    (if result.success then 0 else 1, some result)

/-- The failure record `book-all` pushes for a config entry with invalid
parameters (lines 145–155). -/
def invalidResult (b : BookingParams) : BookingResult :=
  { success := false, activity := b.activity, date := b.date, time := b.time,
    location := b.location, message := "Invalid parameters",
    error := some (String.intercalate ", " (validateBookingParams b)) }

/-- The `book-all` command action of `src/cli.ts` (lines 105–191): keep
the enabled bookings, exit 0 when none remain, otherwise run each
booking (invalid entries contribute a failure record without running),
and exit 0 exactly when every collected result succeeded.  `envs` gives
the stage environment of the i-th attempt. -/
def bookAllCommand (bookings : List BookingParams) (envs : Nat → BookEnv) :
    Nat × List BookingResult :=
  let enabledBookings := bookings.filter (fun b => b.enabled != some false)
  if enabledBookings.isEmpty then (0, [])
  else
    let results := enabledBookings.enum.map (fun ib =>
      if 0 < (validateBookingParams ib.2).length then invalidResult ib.2
      else (book ib.2 (envs ib.1)).1)
    (if results.all (fun r => r.success) then 0 else 1, results)

/-!
## Concrete fixtures used by witnesses and counterexamples
-/

/-- A manual request in the repository's own documented format (note the
one-digit hour, as in `bookings.config.json` and the scheduler catalog). -/
def badmintonReq : BookingParams :=
  { activity := "Drop In Badminton - Adult", date := "03-Feb-2026", time := "8:15 am",
    location := "Cloverdale Recreation Centre" }

/-- A results row offering a Register button for that request. -/
def badmintonRow : EventRow :=
  { text := "Drop In Badminton - Adult  8:15 am - 9:45 am  Cloverdale Recreation Centre  5 spot(s) left  Register",
    hasRegister := true, hasWaitlist := false }

/-- A row whose normalised text is shorter than 30 characters. -/
def tinyRow : EventRow :=
  { text := "More Info", hasRegister := false, hasWaitlist := false }

/-- The end-to-end scenario request of the spec: basketball at
Guildford, waitlist not acceptable. -/
def basketballReq : BookingParams :=
  { activity := "Drop In Basketball - Adult", date := "31-Jan-2026", time := "08:15 am",
    location := "Guildford Recreation Centre", preferWaitlist := false }

/-- The matching row of that scenario: 0 spots left, only a Waitlist
button. -/
def basketballWaitlistRow : EventRow :=
  { text := "Drop In Basketball - Adult  08:15 am - 10:15 am  Guildford Recreation Centre  0 spot(s) left  Waitlist",
    hasRegister := false, hasWaitlist := true }

/-- The environment of that scenario: browser, login and filters work,
slot resolution runs on the single row above, and the optimistic
confirmation flow reports success (its habitual outcome). -/
def basketballEnv : BookEnv :=
  { initResult := .ok (), loginResult := .ok true, filterResult := .ok true,
    slotResult := .ok (findAndSelectSlot basketballReq [basketballWaitlistRow]).1,
    registrationResult := .ok true }

/-- An environment whose first stage throws (browser launch fails). -/
def envInitThrow : BookEnv :=
  { initResult := .thrown "browserType.launch: Executable does not exist",
    loginResult := .ok true, filterResult := .ok true,
    slotResult := .ok { status := .available }, registrationResult := .ok true }

/-- A request with degenerate fields, admissible at the slot-resolution
level (scheduler-driven attempts bypass CLI validation). -/
def shortReq : BookingParams :=
  { activity := "b", date := "31-Jan-2026", time := "8", location := "g" }

/-- A short row that contains the activity, the time label and the first
word of the location of `shortReq`, and offers a Register button. -/
def shortRow : EventRow :=
  { text := "b 8 g Register", hasRegister := true, hasWaitlist := false }

end Surrey

namespace Surrey

/-!
## Helper lemmas
-/

/-- Composing the two date-fns setters the scheduler always pairs: the
result is "the same calendar day, at `h` hours `m` minutes" (with
out-of-range `m` rolling exactly as JavaScript does). -/
theorem setMinutes_setHours (x h m : Int) :
    setMinutes (setHours x h) m = (x / 1440) * 1440 + (h * 60 + m) := by
  simp only [setMinutes, setHours]
  omega

/-- For a valid rule, the instant `getNextCronTrigger` returns falls on
the rule's trigger day, at the release time minus the 2-minute lead. -/
theorem trigger_day_time (s : ScheduleConfig) (hs : ValidSchedule s)
    (hoff : 2 ≤ 60 * s.releaseHour + s.releaseMinute) (t : Int) :
    getDay (getNextCronTrigger s t) = s.cronDay ∧
    timeOfDay (getNextCronTrigger s t) = 60 * s.releaseHour + s.releaseMinute - 2 := by
  obtain ⟨h1, h2, h3, h4, h5, h6⟩ := hs
  simp only [getNextCronTrigger, setMinutes_setHours, getDay, timeOfDay, addDays, isBefore,
    decide_eq_true_eq]
  split <;> split <;> omega

theorem char_toNat_ofNat (n : Nat) (h : n < 55296) : (Char.ofNat n).toNat = n := by
  have hv : n.isValidChar := Or.inl h
  simp [Char.ofNat, hv, Char.toNat, Char.ofNatAux, BitVec.toNat_ofNatLt, UInt32.toNat]

theorem lowerChar_upperChar (c : Char) : lowerChar (upperChar c) = lowerChar c := by
  unfold upperChar lowerChar
  by_cases h : 97 ≤ c.toNat ∧ c.toNat ≤ 122
  · obtain ⟨ha, hb⟩ := h
    have ht : (Char.ofNat (c.toNat - 32)).toNat = c.toNat - 32 :=
      char_toNat_ofNat _ (by omega)
    simp only [if_pos (And.intro ha hb), ht]
    rw [if_pos (by omega), if_neg (by omega)]
    have he : c.toNat - 32 + 32 = c.toNat := by omega
    rw [he, Char.ofNat_toNat]
  · rw [if_neg h]

theorem map_lower_upper (l : List Char) :
    (l.map upperChar).map lowerChar = l.map lowerChar := by
  induction l with
  | nil => rfl
  | cons c t ih => simp [lowerChar_upperChar, ih]

/-- Upper-casing the input does not change the normalised text: the
normalisation lower-cases first. -/
theorem normalize_upperStr (s : String) : normalize (upperStr s) = normalize s := by
  simp only [normalize, upperStr, normList]
  rw [map_lower_upper]

theorem lowerStr_upperStr (s : String) : lowerStr (upperStr s) = lowerStr s := by
  simp only [lowerStr, upperStr]
  rw [map_lower_upper]

theorem noDoubleWs_cons (a : Char) (l : List Char) :
    noDoubleWs (a :: l) = ((l.head?.all fun b => !(isWsCh a && isWsCh b)) && noDoubleWs l) := by
  cases l <;> simp [noDoubleWs]

theorem squash_headNotWs (l : List Char) : headNotWs (squashAux true l) = true := by
  induction l with
  | nil => rfl
  | cons c t ih =>
    by_cases h : isWsCh c = true
    · simpa [squashAux, h] using ih
    · simp only [Bool.not_eq_true] at h
      simp [squashAux, h, headNotWs]

theorem squash_noDoubleWs (l : List Char) :
    noDoubleWs (squashAux true l) = true ∧ noDoubleWs (squashAux false l) = true := by
  induction l with
  | nil => exact ⟨rfl, rfl⟩
  | cons c t ih =>
    by_cases h : isWsCh c = true
    · constructor
      · simpa [squashAux, h] using ih.1
      · have hsq : squashAux false (c :: t) = ' ' :: squashAux true t := by
          simp [squashAux, h]
        rw [hsq, noDoubleWs_cons, ih.1, Bool.and_true]
        have h1 := squash_headNotWs t
        simp only [headNotWs] at h1
        cases hh : (squashAux true t).head? with
        | none => rfl
        | some b =>
          rw [hh] at h1
          simp only [Option.all_some] at h1 ⊢
          simp only [Bool.not_eq_true'] at h1
          simp [h1]
    · simp only [Bool.not_eq_true] at h
      have hsqt : squashAux true (c :: t) = c :: squashAux false t := by
        simp [squashAux, h]
      have hsqf : squashAux false (c :: t) = c :: squashAux false t := by
        simp [squashAux, h]
      constructor
      · rw [hsqt, noDoubleWs_cons, ih.2, Bool.and_true]
        cases hh : (squashAux false t).head? <;> simp [h]
      · rw [hsqf, noDoubleWs_cons, ih.2, Bool.and_true]
        cases hh : (squashAux false t).head? <;> simp [h]

theorem dropWhile_headNotWs (l : List Char) : headNotWs (l.dropWhile isWsCh) = true := by
  induction l with
  | nil => rfl
  | cons c t ih =>
    by_cases h : isWsCh c = true
    · simpa [List.dropWhile, h] using ih
    · simp only [Bool.not_eq_true] at h
      simp [List.dropWhile, h, headNotWs]

theorem noDoubleWs_tail (a : Char) (l : List Char) (h : noDoubleWs (a :: l) = true) :
    noDoubleWs l = true := by
  rw [noDoubleWs_cons, Bool.and_eq_true] at h
  exact h.2

theorem dropWhile_noDoubleWs (l : List Char) (h : noDoubleWs l = true) :
    noDoubleWs (l.dropWhile isWsCh) = true := by
  induction l with
  | nil => rfl
  | cons c t ih =>
    by_cases hc : isWsCh c = true
    · simp only [List.dropWhile, hc]
      exact ih (noDoubleWs_tail c t h)
    · simp only [Bool.not_eq_true] at hc
      simpa [List.dropWhile, hc] using h

theorem trimRight_head (l : List Char) :
    (trimRight l).head? = none ∨ (trimRight l).head? = l.head? := by
  induction l with
  | nil => exact Or.inl rfl
  | cons c t ih =>
    cases htr : trimRight t with
    | nil =>
      by_cases hc : isWsCh c = true
      · left
        simp [trimRight, htr, hc]
      · right
        simp only [Bool.not_eq_true] at hc
        simp [trimRight, htr, hc]
    | cons r rs =>
      right
      simp [trimRight, htr]

theorem trimRight_headNotWs (l : List Char) (h : headNotWs l = true) :
    headNotWs (trimRight l) = true := by
  rcases trimRight_head l with h1 | h1
  · simp [headNotWs, h1]
  · simpa [headNotWs, h1] using h

theorem trimRight_noDoubleWs (l : List Char) (h : noDoubleWs l = true) :
    noDoubleWs (trimRight l) = true := by
  induction l with
  | nil => rfl
  | cons c t ih =>
    have ht : noDoubleWs (trimRight t) = true := ih (noDoubleWs_tail c t h)
    cases htr : trimRight t with
    | nil =>
      by_cases hc : isWsCh c = true
      · simp [trimRight, htr, hc, noDoubleWs]
      · simp only [Bool.not_eq_true] at hc
        simp [trimRight, htr, hc, noDoubleWs]
    | cons r rs =>
      have hstep : trimRight (c :: t) = c :: r :: rs := by
        simp [trimRight, htr]
      rw [hstep, noDoubleWs_cons]
      rw [htr] at ht
      rw [ht, Bool.and_true]
      rcases trimRight_head t with h1 | h1
      · rw [htr] at h1
        simp at h1
      · rw [htr] at h1
        cases t with
        | nil => simp at h1
        | cons b tb =>
          simp only [List.head?] at h1
          have hb : r = b := by
            simpa using h1
          subst hb
          rw [noDoubleWs_cons] at h
          simp only [Bool.and_eq_true] at h
          simpa using h.1

theorem trimRight_lastNotWs (l : List Char) : lastNotWs (trimRight l) = true := by
  induction l with
  | nil => rfl
  | cons c t ih =>
    cases htr : trimRight t with
    | nil =>
      by_cases hc : isWsCh c = true
      · simp [trimRight, htr, hc, lastNotWs]
      · simp only [Bool.not_eq_true] at hc
        simp [trimRight, htr, hc, lastNotWs]
    | cons r rs =>
      have hstep : trimRight (c :: t) = c :: r :: rs := by
        simp [trimRight, htr]
      rw [hstep]
      show lastNotWs (r :: rs) = true
      rw [← htr]
      exact ih

/-- The output of the source's text normalisation is whitespace-collapsed. -/
theorem wsCollapsed_normalize (s : String) : wsCollapsed (normalize s) = true := by
  simp only [wsCollapsed, normalize, normList, Bool.and_eq_true]
  refine ⟨⟨?_, ?_⟩, ?_⟩
  · exact trimRight_headNotWs _ (dropWhile_headNotWs _)
  · exact trimRight_noDoubleWs _ (dropWhile_noDoubleWs _ (squash_noDoubleWs _).2)
  · exact trimRight_lastNotWs _

/-- The scan only ever produces the statuses `available`, `waitlist`
and `not-found`. -/
theorem findSlotRows_status (p : BookingParams) (rows : List EventRow) :
    (findSlotRows p rows).1.status = .available ∨
    (findSlotRows p rows).1.status = .waitlist ∨
    (findSlotRows p rows).1.status = .notFound := by
  induction rows with
  | nil => right; right; rfl
  | cons row rest ih =>
    simp only [findSlotRows]
    split_ifs <;> first
      | exact ih
      | (left; rfl)
      | (right; left; rfl)

/-- A row whose normalised text is shorter than 30 characters is
transparent to the scan. -/
theorem findSlotRows_skip_short (p : BookingParams) (row : EventRow)
    (hshort : (normalize row.text).length < 30) (pre post : List EventRow) :
    findSlotRows p (pre ++ row :: post) = findSlotRows p (pre ++ post) := by
  induction pre with
  | nil =>
    simp only [List.nil_append, findSlotRows]
    rw [if_pos hshort]
  | cons q qs ih =>
    simp only [List.cons_append, findSlotRows, List.append_eq, ih]

/-- With no accepted row, the scan reports `not-found` and clicks
nothing. -/
theorem findSlotRows_no_match (p : BookingParams) (rows : List EventRow)
    (h : ∀ r ∈ rows, rowMatches p r = false) :
    findSlotRows p rows = ({ status := .notFound }, []) := by
  induction rows with
  | nil => rfl
  | cons q qs ih =>
    have hq := h q (List.mem_cons_self q qs)
    have hqs : ∀ r ∈ qs, rowMatches p r = false := fun r hr => h r (List.mem_cons_of_mem q hr)
    simp only [findSlotRows]
    by_cases hq30 : (normalize q.text).length < 30
    · rw [if_pos hq30]
      exact ih hqs
    · rw [if_neg hq30]
      have htf : rowMatchesTests p (normalize q.text) = false := by
        cases h2 : rowMatchesTests p (normalize q.text)
        · rfl
        · exfalso
          rw [rowMatches, h2, Bool.and_true, decide_eq_false_iff_not] at hq
          omega
      rw [if_neg (by simp [htf])]
      exact ih hqs

/-- The first accepted row decides the outcome; when it offers a
Register button, that button is clicked, once, and the status is
`available`. -/
theorem findSlotRows_first_match (p : BookingParams) (pre : List EventRow) (row : EventRow)
    (post : List EventRow) (hpre : ∀ r ∈ pre, rowMatches p r = false)
    (hrow : rowMatches p row = true) (hreg : row.hasRegister = true) :
    findSlotRows p (pre ++ row :: post) =
      ({ status := .available, buttonRef := some "register" }, [⟨.register, row⟩]) := by
  induction pre with
  | nil =>
    rw [rowMatches, Bool.and_eq_true] at hrow
    obtain ⟨hlen, htests⟩ := hrow
    rw [decide_eq_true_eq] at hlen
    simp only [List.nil_append, findSlotRows]
    rw [if_neg (by omega), if_pos htests, if_pos hreg]
  | cons q qs ih =>
    have hq := hpre q (List.mem_cons_self q qs)
    have hqs : ∀ r ∈ qs, rowMatches p r = false :=
      fun r hr => hpre r (List.mem_cons_of_mem q hr)
    simp only [List.cons_append, findSlotRows]
    by_cases hq30 : (normalize q.text).length < 30
    · rw [if_pos hq30]
      exact ih hqs
    · rw [if_neg hq30]
      have htf : rowMatchesTests p (normalize q.text) = false := by
        cases h2 : rowMatchesTests p (normalize q.text)
        · rfl
        · exfalso
          rw [rowMatches, h2, Bool.and_true, decide_eq_false_iff_not] at hq
          omega
      rw [if_neg (by simp [htf])]
      exact ih hqs

end Surrey

namespace Surrey

/-!
## Claim theorems
-/

/-- C1 (code bug evaluation).  In the spec's end-to-end scenario —
request `{activity:"Drop In Basketball - Adult", date:"31-Jan-2026",
time:"08:15 am", location:"Guildford Recreation Centre",
waitlistAcceptable:false}` against a session whose matching row has 0
spots and only a Waitlist control — slot resolution returns status
`waitlist` (not `full`) without clicking, so `book`'s
`status === "full"` branch (the only producer of the message
`"Slot is full"`) is not taken: the attempt continues into the
registration flow and reports `success = true` with message
`"Successfully added to waitlist"`, although nothing was clicked. -/
theorem waitlist_declined_not_reported_full :
    findAndSelectSlot basketballReq [basketballWaitlistRow] =
      ({ status := .waitlist, buttonRef := none }, []) ∧
    (book basketballReq basketballEnv).1.success = true ∧
    (book basketballReq basketballEnv).1.message = "Successfully added to waitlist" ∧
    (book basketballReq basketballEnv).1.waitlisted = some true ∧
    (book basketballReq basketballEnv).1.message ≠ "Slot is full" := by
  refine ⟨by decide, by decide, by decide, by decide, by decide⟩

/-- C2 (counterexample).  For the catalog rule `friday-monday-cloverdale`
and `t = 0` (the epoch Sunday 00:00),
`getNextCronTrigger r (getNextCronTrigger r t)` is not
`getNextCronTrigger r t + 7` days: applied to its own output, the
computation returns that output unchanged, because `isBefore` is strict
and the lead-adjusted release time of that instant equals the instant
itself. -/
theorem nextTrigger_not_plus_week_at_output :
    ¬ (getNextCronTrigger fridayMondayCloverdale
        (getNextCronTrigger fridayMondayCloverdale 0) =
       getNextCronTrigger fridayMondayCloverdale 0 + 7 * 1440) := by
  decide

/-- C2 (amended).  For every valid rule whose lead-adjusted release time
does not underflow midnight, the trigger computation is idempotent on
its own output — the exact trigger instant is treated as still pending,
not as past — and weekly recurrence holds immediately after the
instant: for any `v` strictly after the trigger on the same calendar
day, the next trigger from `v` is exactly the trigger plus 7 days. -/
theorem nextTrigger_idempotent_and_weekly_after (s : ScheduleConfig) (hs : ValidSchedule s)
    (hoff : 2 ≤ 60 * s.releaseHour + s.releaseMinute) (t : Int) :
    getNextCronTrigger s (getNextCronTrigger s t) = getNextCronTrigger s t ∧
    ∀ v : Int, getNextCronTrigger s t < v → dayOf v = dayOf (getNextCronTrigger s t) →
      getNextCronTrigger s v = getNextCronTrigger s t + 7 * 1440 := by
  have hdt := trigger_day_time s hs hoff t
  obtain ⟨h1, h2, h3, h4, h5, h6⟩ := hs
  generalize hu : getNextCronTrigger s t = u at hdt ⊢
  obtain ⟨hd, htd⟩ := hdt
  simp only [getDay, timeOfDay] at hd htd
  constructor
  · simp only [getNextCronTrigger, setMinutes_setHours, getDay, timeOfDay, addDays, isBefore,
      decide_eq_true_eq]
    split <;> split <;> omega
  · intro v hv hday
    simp only [dayOf] at hday
    simp only [getNextCronTrigger, setMinutes_setHours, getDay, timeOfDay, addDays, isBefore,
      decide_eq_true_eq]
    split <;> split <;> omega

/-- C2 (witness).  The amended idempotence and same-day weekly advance,
instantiated on the catalog rule `friday-monday-cloverdale` at `t = 0`. -/
theorem nextTrigger_idempotent_witness :
    ValidSchedule fridayMondayCloverdale ∧
    2 ≤ 60 * fridayMondayCloverdale.releaseHour + fridayMondayCloverdale.releaseMinute ∧
    (getNextCronTrigger fridayMondayCloverdale (getNextCronTrigger fridayMondayCloverdale 0) =
        getNextCronTrigger fridayMondayCloverdale 0 ∧
      ∀ v : Int, getNextCronTrigger fridayMondayCloverdale 0 < v →
        dayOf v = dayOf (getNextCronTrigger fridayMondayCloverdale 0) →
        getNextCronTrigger fridayMondayCloverdale v =
          getNextCronTrigger fridayMondayCloverdale 0 + 7 * 1440) :=
  ⟨by decide, by decide,
    nextTrigger_idempotent_and_weekly_after fridayMondayCloverdale (by decide) (by decide) 0⟩

/-- C3 (counterexample).  At the instant `t = 8308` — a Friday at 18:28,
i.e. exactly the trigger day of `friday-monday-cloverdale` at exactly
its release time (18:30) minus the 2-minute lead — `getNextCronTrigger`
returns `t` itself: the boundary instant is re-selected, not treated as
past, so the result is neither strictly greater than `t` nor 7 days
later. -/
theorem nextTrigger_fixpoint_at_boundary :
    getNextCronTrigger fridayMondayCloverdale 8308 = 8308 ∧
    getDay 8308 = fridayMondayCloverdale.cronDay ∧
    timeOfDay 8308 =
      60 * fridayMondayCloverdale.releaseHour + fridayMondayCloverdale.releaseMinute - 2 := by
  decide

/-- C3 (amended).  For every valid rule whose lead-adjusted release time
does not underflow midnight (`60·hour + minute ≥ 2`) and every instant
`t`: `getNextCronTrigger` never goes backward (`t ≤` result), and it
returns `t` itself exactly when `t` falls on the trigger day at exactly
the release time minus the 2-minute lead; in every other case the
result is strictly in the future. -/
theorem nextTrigger_ge_and_boundary (s : ScheduleConfig) (hs : ValidSchedule s)
    (hoff : 2 ≤ 60 * s.releaseHour + s.releaseMinute) (t : Int) :
    t ≤ getNextCronTrigger s t ∧
      (getNextCronTrigger s t = t ↔
        getDay t = s.cronDay ∧ timeOfDay t = 60 * s.releaseHour + s.releaseMinute - 2) := by
  obtain ⟨h1, h2, h3, h4, h5, h6⟩ := hs
  simp only [getNextCronTrigger, setMinutes_setHours, getDay, timeOfDay, addDays, isBefore,
    decide_eq_true_eq]
  split <;> split <;> omega

/-- C3 (witness).  The amended bound, instantiated on the catalog rule
`friday-monday-cloverdale` at `t = 0`. -/
theorem nextTrigger_ge_witness :
    ValidSchedule fridayMondayCloverdale ∧
    2 ≤ 60 * fridayMondayCloverdale.releaseHour + fridayMondayCloverdale.releaseMinute ∧
    ((0 : Int) ≤ getNextCronTrigger fridayMondayCloverdale 0 ∧
      (getNextCronTrigger fridayMondayCloverdale 0 = 0 ↔
        getDay 0 = fridayMondayCloverdale.cronDay ∧
        timeOfDay 0 = 60 * fridayMondayCloverdale.releaseHour +
          fridayMondayCloverdale.releaseMinute - 2)) :=
  ⟨by decide, by decide,
    nextTrigger_ge_and_boundary fridayMondayCloverdale (by decide) (by decide) 0⟩

end Surrey

namespace Surrey

/-- C4 (counterexample).  The claim's match condition ("a row matches
exactly when its combined text contains the activity, the time label
and the first word of the location") omits the scan's 30-character
minimum: `shortRow` contains all three requested pieces of `shortReq`
and offers a Register button, yet — being shorter than 30 characters
after normalisation — the scan skips it, reports `not-found` and clicks
nothing, where the claim requires status `available` with the Register
control invoked. -/
theorem short_row_match_skipped :
    containsStr (normalize shortRow.text) (lowerStr shortReq.activity) = true ∧
    containsStr (normalize shortRow.text) (normalize shortReq.time) = true ∧
    containsStr (normalize shortRow.text) (firstWord (lowerStr shortReq.location)) = true ∧
    shortRow.hasRegister = true ∧
    findAndSelectSlot shortReq [shortRow] = ({ status := .notFound }, []) := by
  refine ⟨by decide, by decide, by decide, by decide, by decide⟩

/-- C4 (amended).  Slot resolution scans all result rows; a row matches
exactly when its normalised (lower-cased, whitespace-collapsed,
trimmed) text is at least 30 characters long and contains the requested
activity name, the requested time label, and the first word of the
requested location; the first matching row in document order decides
the outcome: if it has a claim (Register) control that control is
invoked, once, and the status is `available`; if no row matches, the
status is `not-found` and no control is invoked. -/
theorem findAndSelectSlot_first_match_spec (p : BookingParams) (rows : List EventRow) :
    (∀ row : EventRow, rowMatches p row =
      (decide (30 ≤ (normalize row.text).length) &&
        (containsStr (normalize row.text) (lowerStr p.activity) &&
         containsStr (normalize row.text) (normalize p.time) &&
         containsStr (normalize row.text) (firstWord (lowerStr p.location))))) ∧
    ((∀ r ∈ rows, rowMatches p r = false) →
      findAndSelectSlot p rows = ({ status := .notFound }, [])) ∧
    (∀ pre row post, rows = pre ++ row :: post →
      (∀ r ∈ pre, rowMatches p r = false) → rowMatches p row = true →
      row.hasRegister = true →
      findAndSelectSlot p rows =
        ({ status := .available, buttonRef := some "register" }, [⟨.register, row⟩])) := by
  refine ⟨fun row => rfl, fun h => findSlotRows_no_match p rows h, ?_⟩
  rintro pre row post rfl hpre hrow hreg
  exact findSlotRows_first_match p pre row post hpre hrow hreg

/-- C4 (witness).  The amended resolution behaviour instantiated on the
spec's positive example: the badminton request against a row offering a
Register button resolves to `available` with exactly one Register
click, and against no rows resolves to `not-found` with no click. -/
theorem findAndSelectSlot_first_match_witness :
    findAndSelectSlot badmintonReq [badmintonRow] =
      ({ status := .available, buttonRef := some "register" }, [⟨.register, badmintonRow⟩]) ∧
    findAndSelectSlot badmintonReq [] = ({ status := .notFound }, []) :=
  ⟨(findAndSelectSlot_first_match_spec badmintonReq [badmintonRow]).2.2 [] badmintonRow []
      rfl (by simp) (by decide) rfl,
    (findAndSelectSlot_first_match_spec badmintonReq []).2.1 (by simp)⟩

end Surrey

namespace Surrey

/-- C5 (confirmed).  For every request and every combination of stage
outcomes — including a stage whose promise rejects — the attempt runs
the session teardown (`cleanup`) exactly once: the teardown sits in the
`finally` of `book`, executed on the success path, on every stage-failure
return, and on the catch path alike. -/
theorem book_cleanup_once (p : BookingParams) (env : BookEnv) : (book p env).2 = 1 := by
  unfold book
  cases bookBody p env <;> rfl

/-- C6 (confirmed).  `book` is a total function — every attempt produces
exactly one result record — and whenever the body of the attempt raises
an error (any stage rejecting, at any point), the boundary catch converts
it into a `success = false` record carrying the message `"Booking
failed"` and the thrown message as error detail; nothing propagates. -/
theorem book_catches_exceptions (p : BookingParams) (env : BookEnv) (msg : String)
    (h : bookBody p env = .error msg) :
    book p env =
      ({ emptyResult p with message := "Booking failed", error := some msg }, 1) := by
  unfold book
  rw [h]

/-- C6 (witness).  The conversion instantiated on an attempt whose first
stage (browser launch) throws. -/
theorem book_catches_exceptions_witness :
    bookBody badmintonReq envInitThrow =
      .error "browserType.launch: Executable does not exist" ∧
    book badmintonReq envInitThrow =
      ({ emptyResult badmintonReq with
          message := "Booking failed",
          error := some "browserType.launch: Executable does not exist" }, 1) :=
  ⟨rfl, book_catches_exceptions badmintonReq envInitThrow _ rfl⟩

/-- C7 (confirmed).  `getNextTargetDate` applies the rule's target-day
function to `now` advanced by one day exactly when `now`'s day-of-week
equals the rule's trigger day and the release time has already strictly
passed on that day; otherwise it applies the target-day function to
`now` directly.  It is a pure function of `(rule, now)`, so calling it
twice with the same inputs yields the same date by construction. -/
theorem getNextTargetDate_spec (s : ScheduleConfig) (hs : ValidSchedule s) (now : Int) :
    getNextTargetDate s now =
      if getDay now = s.cronDay ∧ 60 * s.releaseHour + s.releaseMinute < timeOfDay now
      then s.targetDay (addDays now 1) else s.targetDay now := by
  obtain ⟨h1, h2, h3, h4, h5, h6⟩ := hs
  have hiff : ((getDay now == s.cronDay &&
        isBefore (setMinutes (setHours now s.releaseHour) s.releaseMinute) now) = true)
      ↔ (getDay now = s.cronDay ∧ 60 * s.releaseHour + s.releaseMinute < timeOfDay now) := by
    simp only [Bool.and_eq_true, beq_iff_eq, decide_eq_true_eq, isBefore,
      setMinutes_setHours, timeOfDay]
    constructor
    · rintro ⟨a, b⟩
      exact ⟨a, by omega⟩
    · rintro ⟨a, b⟩
      exact ⟨a, by omega⟩
  simp only [getNextTargetDate]
  rw [if_congr hiff rfl rfl]

/-- C7 (witness).  The target-date resolution instantiated on the
catalog rule `friday-monday-cloverdale` at the instant 8400 (a Friday at
20:00, after the 18:30 release). -/
theorem getNextTargetDate_spec_witness :
    ValidSchedule fridayMondayCloverdale ∧
    (getNextTargetDate fridayMondayCloverdale 8400 =
      if getDay 8400 = fridayMondayCloverdale.cronDay ∧
          60 * fridayMondayCloverdale.releaseHour + fridayMondayCloverdale.releaseMinute <
            timeOfDay 8400
      then fridayMondayCloverdale.targetDay (addDays 8400 1)
      else fridayMondayCloverdale.targetDay 8400) :=
  ⟨by decide, getNextTargetDate_spec fridayMondayCloverdale (by decide) 8400⟩

/-- C8 (code bug evaluation).  The validation regex demands a two-digit
hour, so the one-digit-hour label `"8:15 am"` — the very format the
repository's docs, example config and scheduler catalog use — is
rejected as a configuration error (exit 1, no attempt run), while
two-digit labels pass; the rejection does happen before any session is
opened. -/
theorem one_digit_hour_rejected :
    isValidTimeFormat "8:15 am" = false ∧
    isValidTimeFormat "08:15 am" = true ∧
    isValidTimeFormat "08:15 PM" = true ∧
    isValidTimeFormat "08:15am" = true ∧
    validateBookingParams badmintonReq =
      ["Invalid time format: 8:15 am. Expected: HH:MM am/pm (e.g., 08:15 am)"] ∧
    bookCommand badmintonReq basketballEnv = (1, none) := by
  refine ⟨by decide, by decide, by decide, by decide, by decide, by decide⟩

/-- C9 (confirmed).  The `book` command exits 0 exactly when its single
attempt ran and succeeded (an invalid request exits 1 with no attempt);
the `book-all` command exits 0 exactly when every collected result has
`success = true` (vacuously 0 when no booking is enabled). -/
theorem exit_code_spec (p : BookingParams) (env : BookEnv) (bookings : List BookingParams)
    (envs : Nat → BookEnv) :
    ((bookCommand p env).1 = 0 ↔
      ∃ r, (bookCommand p env).2 = some r ∧ r.success = true) ∧
    ((bookAllCommand bookings envs).1 = 0 ↔
      (bookAllCommand bookings envs).2.all (fun r => r.success) = true) := by
  constructor
  · unfold bookCommand
    by_cases hv : 0 < (validateBookingParams p).length
    · rw [if_pos hv]
      simp
    · rw [if_neg hv]
      by_cases hs : (book p env).1.success <;> simp [hs]
  · unfold bookAllCommand
    by_cases he : (bookings.filter (fun b => b.enabled != some false)).isEmpty
    · rw [if_pos he]
      simp
    · rw [if_neg he]
      by_cases ha : ((bookings.filter (fun b => b.enabled != some false)).enum.map (fun ib =>
          if 0 < (validateBookingParams ib.2).length then invalidResult ib.2
          else (book ib.2 (envs ib.1)).1)).all (fun r => r.success) <;> simp [ha]

/-- C10 (confirmed).  Invariants of slot resolution: the returned status
is always one of `available`, `waitlist`, `not-found` — the declared
status `full` is never produced; a row whose normalised text is shorter
than 30 characters is never considered (removing it changes nothing);
the match tests are case-insensitive (upper-casing the row text or the
request fields changes no match) and operate on whitespace-collapsed
text (the normalisation they read has no leading, trailing or doubled
whitespace). -/
theorem findAndSelectSlot_invariants :
    (∀ (p : BookingParams) (rows : List EventRow),
      (findAndSelectSlot p rows).1.status ≠ .full) ∧
    (∀ (p : BookingParams) (rows : List EventRow),
      (findAndSelectSlot p rows).1.status = .available ∨
      (findAndSelectSlot p rows).1.status = .waitlist ∨
      (findAndSelectSlot p rows).1.status = .notFound) ∧
    (∀ (p : BookingParams) (row : EventRow) (pre post : List EventRow),
      (normalize row.text).length < 30 →
      findAndSelectSlot p (pre ++ row :: post) = findAndSelectSlot p (pre ++ post)) ∧
    (∀ (p : BookingParams) (row : EventRow),
      rowMatches p { row with text := upperStr row.text } = rowMatches p row) ∧
    (∀ (p : BookingParams) (row : EventRow),
      rowMatches { p with activity := upperStr p.activity, time := upperStr p.time,
                          location := upperStr p.location } row = rowMatches p row) ∧
    (∀ s : String, wsCollapsed (normalize s) = true) := by
  refine ⟨?_, ?_, ?_, ?_, ?_, ?_⟩
  · intro p rows h
    rcases findSlotRows_status p rows with h1 | h1 | h1 <;>
      rw [findAndSelectSlot] at h <;> rw [h1] at h <;> exact absurd h (by decide)
  · exact findSlotRows_status
  · intro p row pre post hshort
    exact findSlotRows_skip_short p row hshort pre post
  · intro p row
    simp only [rowMatches, rowMatchesTests, normalize_upperStr]
  · intro p row
    simp only [rowMatches, rowMatchesTests, normalize_upperStr, lowerStr_upperStr]
  · exact wsCollapsed_normalize

/-- C10 (witness).  The invariants instantiated concretely: a
shorter-than-30-characters row is transparent to the scan, and the
normalised text of a padded, mixed-case label is collapsed. -/
theorem findAndSelectSlot_invariants_witness :
    findAndSelectSlot badmintonReq [tinyRow, badmintonRow] =
      findAndSelectSlot badmintonReq [badmintonRow] ∧
    (normalize tinyRow.text).length < 30 ∧
    wsCollapsed (normalize "  Drop  In   BADMINTON - Adult ") = true :=
  ⟨findAndSelectSlot_invariants.2.2.1 badmintonReq tinyRow [] [badmintonRow] (by decide),
    by decide,
    findAndSelectSlot_invariants.2.2.2.2.2 "  Drop  In   BADMINTON - Adult "⟩

end Surrey
